import Mathlib

/-!
Verification development for the QuizMaster repository: a shallow embedding
of the quiz session engine (src/unnamed/part_004, the App component), the
pure helpers (src/quiz-app/src/utils/quiz-helpers.ts) and the scoring
component (src/quiz-app/src/components/QuizResults.vue), together with
theorems about the stated properties of the system.
-/

namespace QuizApp

/-! ## Data model (src/quiz-app/src/types/quiz.ts) -/

/-- A labeled answer option. Mirrors the Choice interface. -/
structure Choice where
  label : String
  text : String
deriving DecidableEq

/-- One quiz item. Mirrors the Question interface; correctLabel is the
optional scoring field used by QuizResults.vue (absent in review-only
datasets). -/
structure Question where
  id : Nat
  text : String
  correctLabel : Option String := none
  choices : List Choice
deriving DecidableEq

/-- The Answers record (Record from number to string). A JavaScript object
with integer-like keys enumerates them in ascending numeric order, so it is
modeled as an association list that the mutators keep sorted by key with no
duplicate keys. -/
abbrev Answers := List (Nat × String)

/-- Property lookup on the Answers record: the value stored at a key, none
when absent (JavaScript undefined). -/
def lookupA : Answers → Nat → Option String
  | [], _ => none
  | (k, v) :: rest, id => if id = k then some v else lookupA rest id

/-- Property write on the Answers record. Overwrites the entry when the key
exists; otherwise inserts it at its numeric position, matching the
enumeration order of integer keys in a JavaScript object. -/
def setAnswer : Answers → Nat → String → Answers
  | [], id, l => [(id, l)]
  | (k, v) :: rest, id, l =>
    if id = k then (k, l) :: rest
    else if id < k then (id, l) :: (k, v) :: rest
    else (k, v) :: setAnswer rest id l

/-- Object.assign: writes every entry of the second record into the first,
in enumeration order. -/
def objAssign (a : Answers) (m : Answers) : Answers :=
  m.foldl (fun acc p => setAnswer acc p.1 p.2) a

/-! ## JavaScript number model for the current index

currentQuestionIndex is a JavaScript number that is an integer except when
a corrupt stored value makes parseInt return NaN; none models NaN. -/

/-- A JavaScript number holding an integer or NaN (none). -/
abbrev JSInt := Option Int

/-- Addition of a constant; NaN propagates. -/
def jsAdd : JSInt → Int → JSInt
  | some a, b => some (a + b)
  | none, _ => none

/-- The JavaScript comparison a < b; false when a is NaN. -/
def jsLtInt : JSInt → Int → Bool
  | some a, b => a < b
  | none, _ => false

/-- The JavaScript comparison a >= b; false when a is NaN. -/
def jsGeInt : JSInt → Int → Bool
  | some a, b => b ≤ a
  | none, _ => false

/-! ## Session state (src/unnamed/part_004 lines 7-14) -/

/-- The reactive state of the App component (loading and error flags are
omitted: they gate the initial fetch, not the session operations). -/
structure QuizState where
  questions : List Question
  answers : Answers
  currentQuestionIndex : JSInt
  quizCompleted : Bool
  hasStarted : Bool
deriving DecidableEq

/-- The default state at component construction: empty answers, index 0,
both flags false (part_004 lines 8-12), with a loaded question list. -/
def initState (qs : List Question) : QuizState :=
  { questions := qs
    answers := []
    currentQuestionIndex := some 0
    quizCompleted := false
    hasStarted := false }

/-! ## Computed values (part_004 lines 22-37) -/

/-- questions.value at position currentQuestionIndex; undefined (none) when
the index is NaN, negative or past the end. -/
def currentQuestion (s : QuizState) : Option Question :=
  match s.currentQuestionIndex with
  | some i => if i < 0 then none else s.questions.get? i.toNat
  | none => none

/-- currentQuestionIndex === 0. -/
def isFirstQuestion (s : QuizState) : Bool :=
  s.currentQuestionIndex == some 0

/-- currentQuestionIndex === questions.length - 1. -/
def isLastQuestion (s : QuizState) : Bool :=
  s.currentQuestionIndex == some ((s.questions.length : Int) - 1)

/-! ## Pure helpers (src/quiz-app/src/utils/quiz-helpers.ts) -/

/-- Math.round (num / den) for natural num and positive den, computed
exactly: floor (num / den + 1 / 2). -/
def roundDiv (num den : Nat) : Nat :=
  (2 * num + den) / (2 * den)

/-- calculateProgress: Math.round (((currentIndex + 1) / totalQuestions)
times 100), and 0 when totalQuestions = 0 (helpers lines 11-17). -/
def calculateProgress (currentIndex totalQuestions : Nat) : Nat :=
  if totalQuestions = 0 then 0
  else roundDiv ((currentIndex + 1) * 100) totalQuestions

/-- countAnswered: Object.keys(answers).length (helpers lines 22-24). -/
def countAnswered (a : Answers) : Nat :=
  (a.map Prod.fst).length

/-- isQuizComplete: countAnswered(answers) >= totalQuestions (helpers
lines 29-34). -/
def isQuizComplete (a : Answers) (totalQuestions : Nat) : Bool :=
  countAnswered a ≥ totalQuestions

/-- getUnansweredQuestions: map each question to its index when it has no
answer entry and to -1 otherwise, then drop the -1 markers (helpers lines
39-46). -/
def getUnansweredQuestions (qs : List Question) (a : Answers) : List Int :=
  ((qs.enum).map (fun p => if lookupA a p.2.id == none then (p.1 : Int) else -1)).filter
    (fun i => i != -1)

/-! ## Scoring (src/quiz-app/src/components/QuizResults.vue lines 14-26) -/

/-- correctAnswers: questions where answers[q.id] === q.correctLabel. The
strict equality compares the possibly-undefined stored answer with the
possibly-undefined correctLabel. -/
def correctAnswers (qs : List Question) (a : Answers) : Nat :=
  (qs.filter (fun q => lookupA a q.id == q.correctLabel)).length

/-- scorePercentage: Math.round ((correctAnswers / totalQuestions) times
100), and 0 when totalQuestions = 0. -/
def scorePercentage (qs : List Question) (a : Answers) : Nat :=
  if qs.length = 0 then 0
  else roundDiv (correctAnswers qs a * 100) qs.length

/-- Follows the words of the specification, for comparison with
correctAnswers: the number of questions whose recorded answer equals that
question listed correctLabel (a question with an absent correctLabel is
never counted). -/
def specCorrectCount (qs : List Question) (a : Answers) : Nat :=
  (qs.filter (fun q =>
    match q.correctLabel with
    | some l => lookupA a q.id == some l
    | none => false)).length

/-! ## Actions (part_004 lines 101-154) -/

/-- selectAnswer: record the label under the current question id; no-op
when there is no current question (lines 101-105). -/
def selectAnswer (label : String) (s : QuizState) : QuizState :=
  match currentQuestion s with
  | some q => { s with answers := setAnswer s.answers q.id label }
  | none => s

/-- goToQuestion: set the index when 0 <= index < questions.length,
otherwise do nothing (lines 107-111). -/
def goToQuestion (index : Int) (s : QuizState) : QuizState :=
  if 0 ≤ index ∧ index < (s.questions.length : Int) then
    { s with currentQuestionIndex := some index }
  else s

/-- goNext: increment the index unless on the last question
(lines 113-117). -/
def goNext (s : QuizState) : QuizState :=
  if !isLastQuestion s then
    { s with currentQuestionIndex := jsAdd s.currentQuestionIndex 1 }
  else s

/-- goPrevious: decrement the index unless on the first question
(lines 119-123). -/
def goPrevious (s : QuizState) : QuizState :=
  if !isFirstQuestion s then
    { s with currentQuestionIndex := jsAdd s.currentQuestionIndex (-1) }
  else s

/-- submitQuiz: mark the quiz completed (lines 125-127). -/
def submitQuiz (s : QuizState) : QuizState :=
  { s with quizCompleted := true }

/-- startQuiz: set hasStarted, clear quizCompleted, and reset the index to
0 when the question list is non-empty and the index is out of bounds
(lines 129-142). The source sets the two flags first and then checks the
index; the checks read only fields the flag writes leave untouched, so the
branches are written with the flag writes inlined. The two comparisons are
JavaScript comparisons, so a NaN index is not repaired. -/
def startQuiz (s : QuizState) : QuizState :=
  if s.questions.length > 0 then
    if jsLtInt s.currentQuestionIndex 0
        || jsGeInt s.currentQuestionIndex (s.questions.length : Int) then
      { s with hasStarted := true, quizCompleted := false, currentQuestionIndex := some 0 }
    else { s with hasStarted := true, quizCompleted := false }
  else { s with hasStarted := true, quizCompleted := false }

/-- restartQuiz: delete every answers entry, reset the index to 0 and clear
quizCompleted; hasStarted is not touched (lines 144-154). -/
def restartQuiz (s : QuizState) : QuizState :=
  { s with answers := [], currentQuestionIndex := some 0, quizCompleted := false }

/-! ## The external store (part_004 lines 16-20, 54-92)

localStorage is an opaque string-keyed store; the engine uses four keys.
The JSON and number conversions below model the external runtime functions
JSON.stringify, JSON.parse, toString and parseInt on the class of values
this app stores; a parse result of none models a thrown exception. -/

/-- The four persisted entries; none is an absent key (getItem null). -/
structure Store where
  answersV : Option String
  indexV : Option String
  completedV : Option String
  startedV : Option String
deriving DecidableEq

/-- JSON string-body escaping as produced by JSON.stringify: quote and
backslash get a leading backslash. -/
def escapeChars : List Char → List Char
  | [] => []
  | c :: cs =>
    if c = '"' ∨ c = '\\' then '\\' :: c :: escapeChars cs
    else c :: escapeChars cs

/-- Decimal digits of n, most significant first, accumulator style; the
fuel argument bounds the recursion and is always given at least n + 1. -/
def natToCharsAux : Nat → Nat → List Char → List Char
  | 0, _, acc => acc
  | fuel + 1, n, acc =>
    if n < 10 then Nat.digitChar n :: acc
    else natToCharsAux fuel (n / 10) (Nat.digitChar (n % 10) :: acc)

/-- The decimal representation of a natural number, as toString renders
it. -/
def natToChars (n : Nat) : List Char :=
  natToCharsAux (n + 1) n []

/-- The decimal representation of an integer, as toString renders it. -/
def intToChars (i : Int) : List Char :=
  if i < 0 then '-' :: natToChars (-i).toNat else natToChars i.toNat

/-- Number-to-string conversion for the stored index; NaN renders as the
string NaN. -/
def jsNumToString : JSInt → String
  | some i => String.mk (intToChars i)
  | none => "NaN"

/-- Boolean toString. -/
def boolToString : Bool → String
  | true => "true"
  | false => "false"

/-- The serialized form of one answers entry: quoted decimal key, colon,
quoted escaped value. -/
def entryChars (p : Nat × String) : List Char :=
  '"' :: (escapeChars (natToChars p.1) ++
    '"' :: ':' :: '"' :: (escapeChars p.2.data ++ ['"']))

/-- The comma-separated entry list of the serialized answers object. -/
def answersJsonChars : Answers → List Char
  | [] => []
  | [p] => entryChars p
  | p :: rest => entryChars p ++ ',' :: answersJsonChars rest

/-- JSON.stringify on the answers record. -/
def jsonStringifyAnswers (a : Answers) : String :=
  String.mk ('\x7b' :: (answersJsonChars a ++ ['\x7d']))

/-- saveToLocalStorage (lines 80-92): write all four keys from the current
state. -/
def saveToLocalStorage (s : QuizState) : Store :=
  { answersV := some (jsonStringifyAnswers s.answers)
    indexV := some (jsNumToString s.currentQuestionIndex)
    completedV := some (boolToString s.quizCompleted)
    startedV := some (boolToString s.hasStarted) }

/-- Parse a JSON string body up to its closing quote, undoing escapeChars;
the flag records whether the previous character was an unconsumed
backslash. Returns the decoded content and the remaining input. -/
def parseStrAux : Bool → List Char → Option (List Char × List Char)
  | _, [] => none
  | true, d :: ds =>
    if d = '"' ∨ d = '\\' then (parseStrAux false ds).map (fun p => (d :: p.1, p.2))
    else none
  | false, c :: cs =>
    if c = '"' then some ([], cs)
    else if c = '\\' then parseStrAux true cs
    else (parseStrAux false cs).map (fun p => (c :: p.1, p.2))

/-- Parse a JSON string body up to its closing quote, undoing
escapeChars. -/
def parseStr (cs : List Char) : Option (List Char × List Char) :=
  parseStrAux false cs

/-- Decimal digit test. -/
def isDigitChar (c : Char) : Bool :=
  '0' ≤ c && c ≤ '9'

/-- Numeric value of a decimal digit character. -/
def digitVal (c : Char) : Nat :=
  c.toNat - 48

/-- Value of a most-significant-first digit string. -/
def digitsToNat (cs : List Char) : Nat :=
  cs.foldl (fun a c => 10 * a + digitVal c) 0

/-- A whole-string natural number: all characters must be digits. -/
def strToNat? (cs : List Char) : Option Nat :=
  if cs ≠ [] ∧ cs.all isDigitChar then some (digitsToNat cs) else none

/-- Split off the maximal leading run of digits. -/
def takeDigits : List Char → List Char × List Char
  | [] => ([], [])
  | c :: cs =>
    if isDigitChar c then
      ((takeDigits cs).1.cons c, (takeDigits cs).2)
    else ([], c :: cs)

/-- Drop leading whitespace, as parseInt does. -/
def dropSpaces : List Char → List Char
  | [] => []
  | c :: cs => if c.isWhitespace then dropSpaces cs else c :: cs

/-- parseInt radix 10 on a trimmed character list: optional sign, then the
maximal digit prefix; none models NaN. -/
def parseIntCore : List Char → JSInt
  | [] => none
  | c :: cs =>
    if c = '-' then
      match takeDigits cs with
      | ([], _) => none
      | (ds, _) => some (-(digitsToNat ds : Int))
    else if c = '+' then
      match takeDigits cs with
      | ([], _) => none
      | (ds, _) => some ((digitsToNat ds : Int))
    else
      match takeDigits (c :: cs) with
      | ([], _) => none
      | (ds, _) => some ((digitsToNat ds : Int))

/-- parseInt radix 10 on a string; none models NaN. -/
def parseIntJS (s : String) : JSInt :=
  parseIntCore (dropSpaces s.data)

/-- Parse the entry list of a serialized answers object, consuming the
closing brace; expects at least one entry. The fuel bounds the number of
entries and is always given larger than their count. -/
def parseEntriesAux : Nat → List Char → Option (Answers × List Char)
  | 0, _ => none
  | fuel + 1, cs =>
    match cs with
    | [] => none
    | c :: cs1 =>
      if c = '"' then
        match parseStr cs1 with
        | none => none
        | some (kcs, rest1) =>
          match rest1 with
          | [] => none
          | c1 :: rest1a =>
            if c1 = ':' then
              match rest1a with
              | [] => none
              | c2 :: rest2 =>
                if c2 = '"' then
                  match strToNat? kcs with
                  | none => none
                  | some k =>
                    match parseStr rest2 with
                    | none => none
                    | some (vcs, rest3) =>
                      match rest3 with
                      | [] => none
                      | d :: rest4 =>
                        if d = '\x7d' then some ([(k, String.mk vcs)], rest4)
                        else if d = ',' then
                          match parseEntriesAux fuel rest4 with
                          | some (m, r) => some ((k, String.mk vcs) :: m, r)
                          | none => none
                        else none
                else none
            else none
      else none

/-- JSON.parse specialised to the strings this app stores under the
answers key: an object with decimal keys and string values. Any input
outside that grammar yields none, modelling a parse exception. -/
def jsonParseAnswers (s : String) : Option Answers :=
  match s.data with
  | [] => none
  | c :: rest =>
    if c = '\x7b' then
      if rest = ['\x7d'] then some []
      else
        match parseEntriesAux (rest.length + 1) rest with
        | some (m, []) => some m
        | _ => none
    else none

/-- The tail of loadSavedState after the answers key: restore the index
via parseInt, then set each boolean only when its stored value is the
string true (part_004 lines 65-73). -/
def loadRest (st : Store) (s : QuizState) : QuizState :=
  let s1 :=
    match st.indexV with
    | some iv => { s with currentQuestionIndex := parseIntJS iv }
    | none => s
  let s2 := if st.completedV == some "true" then { s1 with quizCompleted := true } else s1
  if st.startedV == some "true" then { s2 with hasStarted := true } else s2

/-- loadSavedState (lines 55-77): read the four keys; merge the parsed
answers when the stored string is present and truthy. The whole body sits
in one try/catch, so a JSON.parse exception on the answers value abandons
the remaining three restorations. -/
def loadSavedState (st : Store) (s : QuizState) : QuizState :=
  match st.answersV with
  | some a =>
    if a = "" then loadRest st s
    else
      match jsonParseAnswers a with
      | some m => loadRest st { s with answers := objAssign s.answers m }
      | none => s
  | none => loadRest st s

/-! ## User events through the rendered template (part_004 lines 163-307)

The action functions are local to the component; the only way a user event
reaches them is through an element the template currently renders. The
template shows, in order: the loading state, the error state, the intro
screen, the results screen, the quiz screen. The loading and error gates
precede the session and are not part of the session state, so the dispatch
below models the session-level branches. -/

/-- One user interaction with the rendered page. -/
inductive UIEvent where
  | select (label : String)
  | goTo (i : Int)
  | next
  | prev
  | submit
  | start
  | restart
deriving DecidableEq

/-- The intro screen renders when the quiz is neither completed nor
started and the question list is non-empty (template line 187). -/
def introVisible (s : QuizState) : Bool :=
  !s.quizCompleted && !s.hasStarted && (s.questions.length != 0)

/-- The quiz screen renders when the quiz is started, not completed (the
results branch precedes it), and a current question exists (template lines
207 and 214). -/
def quizVisible (s : QuizState) : Bool :=
  !s.quizCompleted && s.hasStarted && (currentQuestion s).isSome

/-- Deliver a user event to the handler its template element is bound to;
an event whose element is not rendered (or is disabled) does nothing.
Select, navigation and submit live on the quiz screen, with previous
disabled on the first question, next rendered only off the last question,
and submit rendered on the last question and disabled until every question
is answered (template lines 226-305); start lives on the intro screen and
restart on the results screen. -/
def dispatch (s : QuizState) : UIEvent → QuizState
  | .select l => if quizVisible s then selectAnswer l s else s
  | .goTo i => if quizVisible s then goToQuestion i s else s
  | .next => if quizVisible s && !isLastQuestion s then goNext s else s
  | .prev => if quizVisible s && !isFirstQuestion s then goPrevious s else s
  | .submit =>
    if quizVisible s && isLastQuestion s
        && (countAnswered s.answers ≥ s.questions.length : Bool) then
      submitQuiz s
    else s
  | .start => if introVisible s then startQuiz s else s
  | .restart => if s.quizCompleted then restartQuiz s else s

/-! ## Reachable session states

A state is reachable when it arises from a freshly loaded question list by
the session operations, including a page reload: the watchers persist every
state to the store, and the next visit restores from exactly that store
into a fresh default state. -/

/-- The reachable states of one session over a fixed dataset. -/
inductive Reachable : QuizState → Prop
  | init (qs : List Question) : Reachable (initState qs)
  | select (l : String) {s : QuizState} : Reachable s → Reachable (selectAnswer l s)
  | goTo (i : Int) {s : QuizState} : Reachable s → Reachable (goToQuestion i s)
  | next {s : QuizState} : Reachable s → Reachable (goNext s)
  | prev {s : QuizState} : Reachable s → Reachable (goPrevious s)
  | submit {s : QuizState} : Reachable s → Reachable (submitQuiz s)
  | start {s : QuizState} : Reachable s → Reachable (startQuiz s)
  | restart {s : QuizState} : Reachable s → Reachable (restartQuiz s)
  | reload {s : QuizState} :
      Reachable s →
      Reachable (loadSavedState (saveToLocalStorage s) (initState s.questions))

/-! ## Concrete data for witnesses -/

/-- The four canonical choices. -/
def demoChoices : List Choice :=
  [⟨"A", "Answer A"⟩, ⟨"B", "Answer B"⟩, ⟨"C", "Answer C"⟩, ⟨"D", "Answer D"⟩]

/-- A one-question dataset. -/
def demoQ1 : Question :=
  { id := 1, text := "Question 1?", correctLabel := some "A", choices := demoChoices }

/-- A second question. -/
def demoQ2 : Question :=
  { id := 2, text := "Question 2?", correctLabel := some "B", choices := demoChoices }

/-- A third question. -/
def demoQ3 : Question :=
  { id := 3, text := "Question 3?", correctLabel := some "C", choices := demoChoices }

/-- The three-question dataset of scenario A. -/
def demo3Qs : List Question := [demoQ1, demoQ2, demoQ3]

/-- Answers for scenario A: question 1 answered correctly, question 2
incorrectly, question 3 left unanswered. -/
def demoAnswersA : Answers := [(1, "A"), (2, "C")]

/-- A store whose answers value is malformed JSON while the other three
keys hold valid values. -/
def badAnswersStore : Store :=
  { answersV := some "\x7b"
    indexV := some "2"
    completedV := some "true"
    startedV := some "true" }

/-- A store whose answers value is valid while the index and completed
values are corrupt and the started value is valid. -/
def corruptIndexStore : Store :=
  { answersV := some "\x7b\x7d"
    indexV := some "abc"
    completedV := some "yes"
    startedV := some "true" }

/-- The well-formedness invariant of the answers record as a JavaScript
object: keys enumerate in strictly ascending order (hence are unique). -/
def WFAnswers (a : Answers) : Prop :=
  (a.map Prod.fst).Pairwise (· < ·)

/-- Generalisation of getUnansweredQuestions to an arbitrary enumeration
start, used to reason about it by induction. -/
def unansFrom (a : Answers) (n : Nat) (qs : List Question) : List Int :=
  ((List.enumFrom n qs).map
      (fun p => if lookupA a p.2.id == none then (p.1 : Int) else -1)).filter
    (fun i => i != -1)

/-! ## Lemmas about the answers record -/

/-- Writing a key then reading it gives the written value. -/
theorem lookupA_setAnswer_self (a : Answers) (id : Nat) (l : String) :
    lookupA (setAnswer a id l) id = some l := by
  induction a with
  | nil => simp [setAnswer, lookupA]
  | cons p rest ih =>
    obtain ⟨k, v⟩ := p
    by_cases hk : id = k
    · simp [setAnswer, hk, lookupA]
    · by_cases hlt : id < k
      · simp [setAnswer, hk, hlt, lookupA]
      · simp [setAnswer, hk, hlt, lookupA, ih]

/-- Writing a key leaves every other key unchanged. -/
theorem lookupA_setAnswer_ne (a : Answers) (id j : Nat) (l : String)
    (h : j ≠ id) : lookupA (setAnswer a id l) j = lookupA a j := by
  induction a with
  | nil => simp [setAnswer, lookupA, h]
  | cons p rest ih =>
    obtain ⟨k, v⟩ := p
    by_cases hk : id = k
    · subst hk
      simp [setAnswer, lookupA, h]
    · by_cases hlt : id < k
      · simp [setAnswer, hk, hlt, lookupA, h]
      · by_cases hjk : j = k
        · simp [setAnswer, hk, hlt, lookupA, hjk]
        · simp [setAnswer, hk, hlt, lookupA, hjk, ih]

/-! ## Theorems for the claims -/

/-- Claim C2: whenever the session is not in progress, that is hasStarted
is false or completed is true, a user select, goTo, next or previous event
leaves the state unchanged; InProgress is the only state in which those
events change the state. -/
theorem c2_only_in_progress_has_effect (s : QuizState) (l : String) (i : Int)
    (h : s.hasStarted = false ∨ s.quizCompleted = true) :
    dispatch s (.select l) = s ∧ dispatch s (.goTo i) = s ∧
    dispatch s .next = s ∧ dispatch s .prev = s := by
  have hv : quizVisible s = false := by
    rcases h with h | h <;> simp [quizVisible, h]
  refine ⟨?_, ?_, ?_, ?_⟩ <;> simp [dispatch, hv]

/-- Witness for claim C2 at a concrete not-started state. -/
theorem c2_witness :
    dispatch (initState demo3Qs) (.select "A") = initState demo3Qs ∧
    dispatch (initState demo3Qs) (.goTo 1) = initState demo3Qs ∧
    dispatch (initState demo3Qs) .next = initState demo3Qs ∧
    dispatch (initState demo3Qs) .prev = initState demo3Qs :=
  c2_only_in_progress_has_effect (initState demo3Qs) "A" 1 (Or.inl rfl)

/-- Claim C4: restartQuiz empties the answers record, resets the index to
0 and completed to false, and leaves hasStarted unchanged; among the
session operations it is the only one affecting answers entries other than
by overwriting the single current entry: navigation, submit and start
leave the record untouched, and selectAnswer changes at most the entry of
the current question. -/
theorem c4_restart (s : QuizState) (l : String) (i : Int) :
    (restartQuiz s).answers = [] ∧
    (restartQuiz s).currentQuestionIndex = some 0 ∧
    (restartQuiz s).quizCompleted = false ∧
    (restartQuiz s).hasStarted = s.hasStarted ∧
    (goToQuestion i s).answers = s.answers ∧
    (goNext s).answers = s.answers ∧
    (goPrevious s).answers = s.answers ∧
    (submitQuiz s).answers = s.answers ∧
    (startQuiz s).answers = s.answers ∧
    (∀ j q, currentQuestion s = some q → j ≠ q.id →
      lookupA (selectAnswer l s).answers j = lookupA s.answers j) ∧
    (currentQuestion s = none → selectAnswer l s = s) := by
  refine ⟨rfl, rfl, rfl, rfl, ?_, ?_, ?_, rfl, ?_, ?_, ?_⟩
  · unfold goToQuestion; split <;> rfl
  · unfold goNext; split <;> rfl
  · unfold goPrevious; split <;> rfl
  · unfold startQuiz; split <;> (try split) <;> rfl
  · intro j q hq hj
    simp [selectAnswer, hq, lookupA_setAnswer_ne _ _ _ _ hj]
  · intro hq
    simp [selectAnswer, hq]

/-- Witness for claim C4 at a concrete completed state. -/
theorem c4_witness :
    (restartQuiz (submitQuiz (startQuiz (initState demo3Qs)))).answers = [] ∧
    (restartQuiz (submitQuiz (startQuiz (initState demo3Qs)))).hasStarted = true ∧
    lookupA (selectAnswer "B" { initState demo3Qs with
      answers := demoAnswersA, hasStarted := true }).answers 2 = lookupA demoAnswersA 2 := by
  refine ⟨(c4_restart (submitQuiz (startQuiz (initState demo3Qs))) "A" 0).1, ?_, ?_⟩
  · exact (c4_restart (submitQuiz (startQuiz (initState demo3Qs))) "A" 0).2.2.2.1
  · exact (c4_restart { initState demo3Qs with
      answers := demoAnswersA, hasStarted := true } "B" 0).2.2.2.2.2.2.2.2.2.1
      2 demoQ1 (by decide) (by decide)

/-- Claim C7: calculateProgress is monotone in the index for a fixed
total, reaches 100 at the last index when the total is positive, and is 0
for an empty quiz. -/
theorem c7_progress (n i j : Nat) :
    (i ≤ j → calculateProgress i n ≤ calculateProgress j n) ∧
    (0 < n → calculateProgress (n - 1) n = 100) ∧
    calculateProgress i 0 = 0 := by
  refine ⟨?_, ?_, by simp [calculateProgress]⟩
  · intro hij
    by_cases hn : n = 0
    · simp [calculateProgress, hn]
    · have hmul : (i + 1) * 100 ≤ (j + 1) * 100 :=
        Nat.mul_le_mul_right _ (by omega)
      simp only [calculateProgress, hn, if_false, roundDiv]
      exact Nat.div_le_div_right (by omega)
  · intro hn
    have hne : n ≠ 0 := by omega
    have hstep : n - 1 + 1 = n := by omega
    simp only [calculateProgress, hne, if_false, roundDiv, hstep]
    have hnum : 2 * (n * 100) + n = n + 2 * n * 100 := by ring
    rw [hnum, Nat.add_mul_div_left _ _ (by omega : 0 < 2 * n),
      Nat.div_eq_of_lt (by omega)]

/-- Witness for claim C7 at concrete values. -/
theorem c7_witness :
    (calculateProgress 0 3 ≤ calculateProgress 1 3) ∧
    calculateProgress 2 3 = 100 ∧ calculateProgress 0 0 = 0 :=
  ⟨(c7_progress 3 0 1).1 (by decide), (c7_progress 3 2 0).2.1 (by decide),
    (c7_progress 0 0 0).2.2⟩

/-- Claim C9: goToQuestion sets the index exactly when the argument lies
in bounds and otherwise changes nothing; in particular with one question,
goTo 5 is a no-op. -/
theorem c9_goto (s : QuizState) (i : Int) :
    (0 ≤ i ∧ i < (s.questions.length : Int) →
      goToQuestion i s = { s with currentQuestionIndex := some i }) ∧
    (¬(0 ≤ i ∧ i < (s.questions.length : Int)) → goToQuestion i s = s) ∧
    goToQuestion 5 (initState [demoQ1]) = initState [demoQ1] := by
  refine ⟨?_, ?_, by decide⟩
  · intro h; simp [goToQuestion, h]
  · intro h; simp [goToQuestion, h]

/-- Witness for claim C9 at concrete inputs. -/
theorem c9_witness :
    goToQuestion 2 (initState demo3Qs) =
      { initState demo3Qs with currentQuestionIndex := some 2 } ∧
    goToQuestion (-1) (initState demo3Qs) = initState demo3Qs :=
  ⟨(c9_goto (initState demo3Qs) 2).1 (by decide),
    (c9_goto (initState demo3Qs) (-1)).2.1 (by decide)⟩

/-- Claim C10: when a current question exists, selectAnswer writes its
label under the current question id and changes nothing else: every other
answers entry and the index, completed, started and questions fields are
untouched. -/
theorem c10_select_frame (s : QuizState) (l : String) (q : Question)
    (h : currentQuestion s = some q) :
    lookupA (selectAnswer l s).answers q.id = some l ∧
    (∀ j, j ≠ q.id → lookupA (selectAnswer l s).answers j = lookupA s.answers j) ∧
    (selectAnswer l s).currentQuestionIndex = s.currentQuestionIndex ∧
    (selectAnswer l s).quizCompleted = s.quizCompleted ∧
    (selectAnswer l s).hasStarted = s.hasStarted ∧
    (selectAnswer l s).questions = s.questions := by
  refine ⟨?_, ?_, ?_, ?_, ?_, ?_⟩ <;>
    simp [selectAnswer, h, lookupA_setAnswer_self]
  intro j hj
  exact lookupA_setAnswer_ne _ _ _ _ hj

/-- Witness for claim C10 at a concrete in-progress state. -/
theorem c10_witness :
    lookupA (selectAnswer "B" { initState demo3Qs with hasStarted := true }).answers 1 =
      some "B" ∧
    lookupA (selectAnswer "B" { initState demo3Qs with hasStarted := true }).answers 2 =
      lookupA (initState demo3Qs).answers 2 := by
  have h := c10_select_frame { initState demo3Qs with hasStarted := true } "B" demoQ1
    (by decide)
  exact ⟨h.1, h.2.1 2 (by decide)⟩

/-- Claim C6: under the scoring premise that every question carries a
correctLabel, the correct count of QuizResults equals the count described
by the specification, the percentage is the rounded ratio of that count to
the total (0 for an empty quiz), and scenario A scores 33. -/
theorem c6_score (qs : List Question) (a : Answers)
    (h : ∀ q ∈ qs, (q.correctLabel).isSome) :
    correctAnswers qs a = specCorrectCount qs a ∧
    scorePercentage qs a =
      (if qs.length = 0 then 0 else roundDiv (specCorrectCount qs a * 100) qs.length) ∧
    scorePercentage demo3Qs demoAnswersA = 33 := by
  have hcount : correctAnswers qs a = specCorrectCount qs a := by
    unfold correctAnswers specCorrectCount
    congr 1
    apply List.filter_congr
    intro q hq
    obtain ⟨lc, hlc⟩ := Option.isSome_iff_exists.mp (h q hq)
    rw [hlc]
  refine ⟨hcount, ?_, by decide⟩
  simp only [scorePercentage, hcount]

/-- Witness for claim C6 on the scenario A dataset. -/
theorem c6_witness :
    correctAnswers demo3Qs demoAnswersA = specCorrectCount demo3Qs demoAnswersA ∧
    scorePercentage demo3Qs demoAnswersA = 33 :=
  ⟨(c6_score demo3Qs demoAnswersA (by decide)).1,
    (c6_score demo3Qs demoAnswersA (by decide)).2.2⟩

/-! ## Lemmas about getUnansweredQuestions -/

/-- getUnansweredQuestions is unansFrom at start index 0. -/
theorem getUnanswered_eq_unansFrom (qs : List Question) (a : Answers) :
    getUnansweredQuestions qs a = unansFrom a 0 qs := rfl

/-- Unfolding unansFrom over a cons cell. -/
theorem unansFrom_cons (a : Answers) (n : Nat) (q : Question) (qs : List Question) :
    unansFrom a n (q :: qs) =
      (if lookupA a q.id == none then [(n : Int)] else []) ++ unansFrom a (n + 1) qs := by
  have hne : (((n : Int) != -1) = true) := by
    simp only [bne_iff_ne, ne_eq]
    omega
  by_cases h : lookupA a q.id = none <;>
    simp [unansFrom, List.enumFrom, h, hne, List.filter_cons]

/-- Every index produced from start n is at least n. -/
theorem unansFrom_lb (a : Answers) (qs : List Question) :
    ∀ n, ∀ x ∈ unansFrom a n qs, (n : Int) ≤ x := by
  induction qs with
  | nil => intro n x hx; simp [unansFrom] at hx
  | cons q qs ih =>
    intro n x hx
    rw [unansFrom_cons] at hx
    rcases List.mem_append.mp hx with hx | hx
    · by_cases h : lookupA a q.id == none <;> simp [h] at hx
      omega
    · have := ih (n + 1) x hx
      omega

/-- The produced indices are strictly ascending. -/
theorem unansFrom_pairwise (a : Answers) (qs : List Question) :
    ∀ n, (unansFrom a n qs).Pairwise (· < ·) := by
  induction qs with
  | nil => intro n; simp [unansFrom]
  | cons q qs ih =>
    intro n
    rw [unansFrom_cons]
    by_cases h : lookupA a q.id == none
    · simp only [h, if_true, List.singleton_append, List.pairwise_cons]
      refine ⟨fun x hx => ?_, ih (n + 1)⟩
      have := unansFrom_lb a qs (n + 1) x hx
      omega
    · simp only [h, if_false, List.nil_append]
      exact ih (n + 1)

/-- The number of produced indices counts the unanswered questions. -/
theorem unansFrom_length (a : Answers) (qs : List Question) :
    ∀ n, (unansFrom a n qs).length =
      (qs.filter (fun q => lookupA a q.id == none)).length := by
  induction qs with
  | nil => intro n; simp [unansFrom]
  | cons q qs ih =>
    intro n
    rw [unansFrom_cons]
    by_cases h : lookupA a q.id == none <;>
      simp [h, List.filter_cons, ih (n + 1)]

/-- Membership characterisation of the produced indices. -/
theorem unansFrom_mem (a : Answers) (qs : List Question) :
    ∀ n (x : Int), x ∈ unansFrom a n qs ↔
      ∃ i q, x = ((n + i : Nat) : Int) ∧ qs.get? i = some q ∧ lookupA a q.id = none := by
  induction qs with
  | nil =>
    intro n x
    simp [unansFrom]
  | cons q qs ih =>
    intro n x
    rw [unansFrom_cons]
    constructor
    · intro hx
      rcases List.mem_append.mp hx with hx | hx
      · by_cases h : lookupA a q.id == none <;> simp [h] at hx
        refine ⟨0, q, by omega, rfl, by simpa using h⟩
      · obtain ⟨i, q', hxi, hget, hnone⟩ := (ih (n + 1) x).mp hx
        exact ⟨i + 1, q', by omega, by simpa using hget, hnone⟩
    · rintro ⟨i, q', hxi, hget, hnone⟩
      cases i with
      | zero =>
        have hq : q = q' := by simpa using hget
        subst hq
        have h : lookupA a q.id == none := by simp [hnone]
        apply List.mem_append.mpr
        left
        simp [h]
        omega
      | succ i =>
        apply List.mem_append.mpr
        right
        refine (ih (n + 1) x).mpr ⟨i, q', by omega, by simpa using hget, hnone⟩

/-! ## Counting lemmas for the answered entries -/

/-- Splitting the length of a list between a predicate and its negation. -/
theorem filter_length_split {α : Type} (p : α → Bool) (l : List α) :
    (l.filter p).length + (l.filter (fun x => !p x)).length = l.length := by
  induction l with
  | nil => rfl
  | cons x l ih =>
    by_cases h : p x <;> simp [List.filter_cons, h, ← ih] <;> omega

/-- The filter of a disjunction of disjoint predicates splits. -/
theorem filter_or_disjoint {α : Type} (p q : α → Bool) (l : List α)
    (h : ∀ x ∈ l, p x = true → q x = false) :
    (l.filter (fun x => p x || q x)).length = (l.filter p).length + (l.filter q).length := by
  induction l with
  | nil => rfl
  | cons x l ih =>
    have hx := h x (List.mem_cons_self x l)
    have ih' := ih (fun y hy => h y (List.mem_cons_of_mem x hy))
    by_cases hp : p x
    · have hq : q x = false := hx hp
      simp [List.filter_cons, hp, hq, ih']
      omega
    · by_cases hq : q x <;> simp [List.filter_cons, hp, hq, ih'] <;> omega

/-- When the images under f are distinct and k is among them, exactly one
element maps to k. -/
theorem filter_single {α : Type} (f : α → Nat) (k : Nat) (l : List α)
    (hnd : (l.map f).Nodup) (hk : k ∈ l.map f) :
    (l.filter (fun x => f x == k)).length = 1 := by
  induction l with
  | nil => simp at hk
  | cons x l ih =>
    rw [List.map_cons, List.nodup_cons] at hnd
    by_cases hfx : f x = k
    · have hnone : l.filter (fun y => f y == k) = [] := by
        apply List.filter_eq_nil_iff.mpr
        intro y hy
        have : f y ∈ l.map f := List.mem_map_of_mem f hy
        simp only [beq_iff_eq]
        intro hcontra
        exact hnd.1 (by rw [hfx, ← hcontra]; exact this)
      simp [List.filter_cons, hfx, hnone]
    · have hk' : k ∈ l.map f := by
        rcases List.mem_map.mp hk with ⟨y, hy, hfy⟩
        rcases List.mem_cons.mp hy with rfl | hy'
        · exact absurd hfy hfx
        · rw [← hfy]
          exact List.mem_map_of_mem f hy'
      simp [List.filter_cons, hfx, ih hnd.2 hk']

/-- A key outside the record reads as undefined. -/
theorem lookupA_eq_none_of_not_mem (a : Answers) (k : Nat)
    (h : k ∉ a.map Prod.fst) : lookupA a k = none := by
  induction a with
  | nil => rfl
  | cons p rest ih =>
    simp only [List.map_cons, List.mem_cons] at h
    push_neg at h
    simp [lookupA, h.1, ih h.2]

/-- With distinct question ids and answer keys all drawn from them, the
questions holding an answer entry are exactly as many as the entries. -/
theorem answered_filter_length (qs : List Question) (a : Answers)
    (hqs : (qs.map Question.id).Nodup) (ha : (a.map Prod.fst).Nodup)
    (hsub : ∀ k ∈ a.map Prod.fst, k ∈ qs.map Question.id) :
    (qs.filter (fun q => (lookupA a q.id).isSome)).length = a.length := by
  induction a with
  | nil =>
    have : qs.filter (fun q => (lookupA [] q.id).isSome) = [] := by
      apply List.filter_eq_nil_iff.mpr
      intro q _
      simp [lookupA]
    simp [this]
  | cons p rest ih =>
    obtain ⟨k, v⟩ := p
    rw [List.map_cons, List.nodup_cons] at ha
    have hkqs : k ∈ qs.map Question.id := hsub k (by simp)
    have hrest : lookupA rest k = none :=
      lookupA_eq_none_of_not_mem rest k ha.1
    have hcongr : qs.filter (fun q => (lookupA ((k, v) :: rest) q.id).isSome) =
        qs.filter (fun q => (q.id == k) || (lookupA rest q.id).isSome) := by
      apply List.filter_congr
      intro q _
      by_cases h : q.id = k <;> simp [lookupA, h]
    rw [hcongr,
      filter_or_disjoint _ _ _ (fun q _ hq => by
        have : q.id = k := by simpa using hq
        rw [this, hrest]; rfl),
      filter_single Question.id k qs hqs hkqs,
      ih ha.2 (fun j hj => hsub j (by simp [hj]))]
    simp only [List.length_cons]
    omega

/-- Claim C8: with pairwise distinct question ids and an answers record
whose keys are all question ids, getUnansweredQuestions lists exactly the
indices of the questions without an answer entry, in strictly ascending
order, and its length is the question count minus countAnswered. -/
theorem c8_unanswered (qs : List Question) (a : Answers)
    (hqs : (qs.map Question.id).Nodup) (ha : (a.map Prod.fst).Nodup)
    (hsub : ∀ k ∈ a.map Prod.fst, k ∈ qs.map Question.id) :
    (getUnansweredQuestions qs a).Pairwise (· < ·) ∧
    (getUnansweredQuestions qs a).length = qs.length - countAnswered a ∧
    (∀ i : Nat, (i : Int) ∈ getUnansweredQuestions qs a ↔
      ∃ q, qs.get? i = some q ∧ lookupA a q.id = none) := by
  refine ⟨?_, ?_, ?_⟩
  · rw [getUnanswered_eq_unansFrom]
    exact unansFrom_pairwise a qs 0
  · rw [getUnanswered_eq_unansFrom, unansFrom_length a qs 0]
    have hsplit := filter_length_split (fun q => (lookupA a q.id).isSome) qs
    have hconv : qs.filter (fun q => lookupA a q.id == none) =
        qs.filter (fun q => !(lookupA a q.id).isSome) := by
      apply List.filter_congr
      intro q _
      cases lookupA a q.id <;> rfl
    have hans := answered_filter_length qs a hqs ha hsub
    have hcount : countAnswered a = a.length := by
      simp [countAnswered]
    rw [hconv, hcount]
    omega
  · intro i
    rw [getUnanswered_eq_unansFrom, unansFrom_mem a qs 0 (i : Int)]
    constructor
    · rintro ⟨j, q, hij, hget, hnone⟩
      have : i = j := by omega
      subst this
      exact ⟨q, hget, hnone⟩
    · rintro ⟨q, hget, hnone⟩
      exact ⟨i, q, by omega, hget, hnone⟩

/-- Witness for claim C8 on the scenario A data. -/
theorem c8_witness :
    (getUnansweredQuestions demo3Qs demoAnswersA).Pairwise (· < ·) ∧
    (getUnansweredQuestions demo3Qs demoAnswersA).length =
      demo3Qs.length - countAnswered demoAnswersA := by
  have h := c8_unanswered demo3Qs demoAnswersA (by decide) (by decide)
    (by intro k hk; fin_cases hk <;> decide)
  exact ⟨h.1, h.2.1⟩

/-! ## Round-trip lemmas for the serialized store values -/

/-- Parsing an escaped string body recovers it and the input after the
closing quote. -/
theorem parseStr_escape (cs rest : List Char) :
    parseStr (escapeChars cs ++ '"' :: rest) = some (cs, rest) := by
  show parseStrAux false (escapeChars cs ++ '"' :: rest) = some (cs, rest)
  induction cs with
  | nil => rfl
  | cons c cs ih =>
    by_cases h : c = '"' ∨ c = '\\'
    · simp [escapeChars, h, parseStrAux, ih]
    · push_neg at h
      simp [escapeChars, h.1, h.2, parseStrAux, ih]

/-- The accumulator of natToCharsAux is a suffix it never inspects. -/
theorem natToCharsAux_append (n : Nat) : ∀ (fuel : Nat) (acc : List Char),
    n < fuel → natToCharsAux fuel n acc = natToCharsAux (n + 1) n [] ++ acc := by
  induction n using Nat.strong_induction_on with
  | _ n ih =>
    intro fuel acc hlt
    match fuel, hlt with
    | fuel + 1, _ =>
      by_cases hn : n < 10
      · simp [natToCharsAux, hn]
      · have hdiv : n / 10 < n := Nat.div_lt_self (by omega) (by omega)
        have hdivf : n / 10 < fuel := by omega
        rw [show natToCharsAux (fuel + 1) n acc =
            natToCharsAux fuel (n / 10) (Nat.digitChar (n % 10) :: acc) by
          simp [natToCharsAux, hn]]
        rw [ih (n / 10) hdiv fuel _ hdivf]
        rw [show natToCharsAux (n + 1) n [] =
            natToCharsAux n (n / 10) [Nat.digitChar (n % 10)] by
          simp [natToCharsAux, hn]]
        rw [ih (n / 10) hdiv n _ (by omega)]
        simp

/-- natToChars of a one-digit number. -/
theorem natToChars_small (n : Nat) (hn : n < 10) :
    natToChars n = [Nat.digitChar n] := by
  simp [natToChars, natToCharsAux, hn]

/-- natToChars of a larger number splits off its last digit. -/
theorem natToChars_step (n : Nat) (hn : ¬n < 10) :
    natToChars n = natToChars (n / 10) ++ [Nat.digitChar (n % 10)] := by
  have hdiv : n / 10 < n := Nat.div_lt_self (by omega) (by omega)
  rw [show natToChars n = natToCharsAux n (n / 10) [Nat.digitChar (n % 10)] by
    simp [natToChars, natToCharsAux, hn]]
  rw [natToCharsAux_append (n / 10) n _ (by omega)]
  rfl

/-- The digit characters and their values. -/
theorem digitChar_spec (d : Nat) (h : d < 10) :
    isDigitChar (Nat.digitChar d) = true ∧ digitVal (Nat.digitChar d) = d := by
  interval_cases d <;> exact ⟨by decide, by decide⟩

/-- natToChars produces at least one character. -/
theorem natToChars_ne_nil (n : Nat) : natToChars n ≠ [] := by
  by_cases hn : n < 10
  · rw [natToChars_small n hn]; simp
  · rw [natToChars_step n hn]; simp

/-- natToChars produces digits only. -/
theorem natToChars_all_digits (n : Nat) : (natToChars n).all isDigitChar = true := by
  induction n using Nat.strong_induction_on with
  | _ n ih =>
    by_cases hn : n < 10
    · rw [natToChars_small n hn]
      simp [(digitChar_spec n hn).1]
    · have hdiv : n / 10 < n := Nat.div_lt_self (by omega) (by omega)
      rw [natToChars_step n hn]
      simp [List.all_append, ih (n / 10) hdiv,
        (digitChar_spec (n % 10) (Nat.mod_lt n (by omega))).1]

/-- Appending one digit multiplies the value by ten and adds it. -/
theorem digitsToNat_append (cs : List Char) (c : Char) :
    digitsToNat (cs ++ [c]) = 10 * digitsToNat cs + digitVal c := by
  simp [digitsToNat, List.foldl_append]

/-- The decimal representation evaluates back to its number. -/
theorem digitsToNat_natToChars (n : Nat) : digitsToNat (natToChars n) = n := by
  induction n using Nat.strong_induction_on with
  | _ n ih =>
    by_cases hn : n < 10
    · rw [natToChars_small n hn]
      simp [digitsToNat, (digitChar_spec n hn).2]
    · have hdiv : n / 10 < n := Nat.div_lt_self (by omega) (by omega)
      rw [natToChars_step n hn, digitsToNat_append, ih (n / 10) hdiv,
        (digitChar_spec (n % 10) (Nat.mod_lt n (by omega))).2]
      omega

/-- Reading a serialized natural number as a whole string succeeds. -/
theorem strToNat_natToChars (n : Nat) : strToNat? (natToChars n) = some n := by
  simp [strToNat?, natToChars_ne_nil n, natToChars_all_digits n,
    digitsToNat_natToChars n]

/-- A digit character is not a quote, backslash, sign or whitespace. -/
theorem isDigitChar_not_special (c : Char) (h : isDigitChar c = true) :
    c ≠ '"' ∧ c ≠ '\\' ∧ c ≠ '-' ∧ c ≠ '+' ∧ c.isWhitespace = false := by
  refine ⟨?_, ?_, ?_, ?_, ?_⟩
  · rintro rfl; exact absurd h (by decide)
  · rintro rfl; exact absurd h (by decide)
  · rintro rfl; exact absurd h (by decide)
  · rintro rfl; exact absurd h (by decide)
  · by_cases hw : c.isWhitespace = true
    · simp [Char.isWhitespace] at hw
      rcases hw with ((rfl | rfl) | rfl) | rfl <;> exact absurd h (by decide)
    · simpa using hw

/-- takeDigits consumes an all-digit list entirely. -/
theorem takeDigits_all (cs : List Char) (h : cs.all isDigitChar = true) :
    takeDigits cs = (cs, []) := by
  induction cs with
  | nil => rfl
  | cons c cs ih =>
    simp only [List.all_cons, Bool.and_eq_true] at h
    simp [takeDigits, h.1, ih h.2]

/-- parseIntCore inverts the decimal rendering of an integer. -/
theorem parseIntCore_intToChars (i : Int) : parseIntCore (intToChars i) = some i := by
  by_cases hi : i < 0
  · obtain ⟨c, cs, hcs⟩ := List.exists_cons_of_ne_nil (natToChars_ne_nil (-i).toNat)
    have hall : (c :: cs).all isDigitChar = true := hcs ▸ natToChars_all_digits _
    have htake : takeDigits (c :: cs) = (c :: cs, []) := takeDigits_all _ hall
    have hval : digitsToNat (c :: cs) = (-i).toNat := hcs ▸ digitsToNat_natToChars _
    simp only [intToChars, hi, if_true, hcs, parseIntCore, htake]
    simp only [hval]
    have : ((-i).toNat : Int) = -i := Int.toNat_of_nonneg (by omega)
    rw [this]
    simp
  · obtain ⟨c, cs, hcs⟩ := List.exists_cons_of_ne_nil (natToChars_ne_nil i.toNat)
    have hall : (c :: cs).all isDigitChar = true := hcs ▸ natToChars_all_digits _
    have hc : isDigitChar c = true := by
      simp only [List.all_cons, Bool.and_eq_true] at hall
      exact hall.1
    obtain ⟨_, _, hminus, hplus, _⟩ := isDigitChar_not_special c hc
    have htake : takeDigits (c :: cs) = (c :: cs, []) := takeDigits_all _ hall
    have hval : digitsToNat (c :: cs) = i.toNat := hcs ▸ digitsToNat_natToChars _
    simp only [intToChars, hi, if_false, hcs, parseIntCore, hminus, hplus,
      if_neg hminus, if_neg hplus, htake]
    simp only [hval]
    rw [Int.toNat_of_nonneg (by omega)]

/-- parseInt inverts the number-to-string conversion of the stored index,
NaN included. -/
theorem parseIntJS_jsNumToString (x : JSInt) : parseIntJS (jsNumToString x) = x := by
  cases x with
  | none => rfl
  | some i =>
    show parseIntCore (dropSpaces (intToChars i)) = some i
    have hdrop : dropSpaces (intToChars i) = intToChars i := by
      by_cases hi : i < 0
      · simp [intToChars, hi, dropSpaces]
      · obtain ⟨c, cs, hcs⟩ := List.exists_cons_of_ne_nil (natToChars_ne_nil i.toNat)
        have hall : (c :: cs).all isDigitChar = true := hcs ▸ natToChars_all_digits _
        have hc : isDigitChar c = true := by
          simp only [List.all_cons, Bool.and_eq_true] at hall
          exact hall.1
        simp [intToChars, hi, hcs, dropSpaces, (isDigitChar_not_special c hc).2.2.2.2]
    rw [hdrop, parseIntCore_intToChars]

/-- Unfolding the serialized entry list over two or more entries. -/
theorem answersJsonChars_cons2 (p q : Nat × String) (rest : Answers) :
    answersJsonChars (p :: q :: rest) =
      entryChars p ++ ',' :: answersJsonChars (q :: rest) := rfl

/-- Parsing the serialized entries of a non-empty record, given fuel at
least the number of entries, returns the record and the input after the
closing brace. -/
theorem parseEntriesAux_round (a : Answers) : ∀ (fuel : Nat) (rest : List Char),
    a ≠ [] → a.length ≤ fuel →
    parseEntriesAux fuel (answersJsonChars a ++ '\x7d' :: rest) = some (a, rest) := by
  induction a with
  | nil => intro fuel rest h; exact absurd rfl h
  | cons p a' ih =>
    intro fuel rest _ hlen
    cases fuel with
    | zero => simp at hlen
    | succ fuel =>
      cases a' with
      | nil =>
        simp only [answersJsonChars, entryChars, List.cons_append, List.append_assoc,
          List.nil_append]
        simp [parseEntriesAux, parseStr_escape, strToNat_natToChars]
      | cons q a'' =>
        rw [answersJsonChars_cons2]
        simp only [entryChars, List.cons_append, List.append_assoc, List.nil_append]
        have hih := ih fuel rest (by simp) (by simp at hlen ⊢; omega)
        simp [parseEntriesAux, parseStr_escape, strToNat_natToChars, hih]

/-- The serialized entry list is at least as long as the record. -/
theorem answersJsonChars_len (a : Answers) :
    a.length ≤ (answersJsonChars a).length := by
  induction a with
  | nil => simp [answersJsonChars]
  | cons p a' ih =>
    cases a' with
    | nil => simp [answersJsonChars, entryChars]
    | cons q a'' =>
      rw [answersJsonChars_cons2]
      simp only [entryChars, List.length_append, List.length_cons] at ih ⊢
      omega

/-- The serialized entry list of a non-empty record starts with a
quote. -/
theorem answersJsonChars_head (p : Nat × String) (a' : Answers) :
    ∃ t, answersJsonChars (p :: a') = '"' :: t := by
  cases a' <;> exact ⟨_, rfl⟩

/-- JSON.parse inverts JSON.stringify on every answers record. -/
theorem jsonParse_stringify (a : Answers) :
    jsonParseAnswers (jsonStringifyAnswers a) = some a := by
  cases a with
  | nil => rfl
  | cons p a' =>
    obtain ⟨t, ht⟩ := answersJsonChars_head p a'
    have hunf : jsonParseAnswers (jsonStringifyAnswers (p :: a')) =
        (if answersJsonChars (p :: a') ++ ['\x7d'] = ['\x7d'] then some []
         else
           match parseEntriesAux ((answersJsonChars (p :: a') ++ ['\x7d']).length + 1)
               (answersJsonChars (p :: a') ++ ['\x7d']) with
           | some (m, []) => some m
           | _ => none) := rfl
    have hne : ¬(answersJsonChars (p :: a') ++ ['\x7d'] = ['\x7d']) := by
      rw [ht]
      simp
    have hlen : (p :: a').length ≤ (answersJsonChars (p :: a') ++ ['\x7d']).length + 1 := by
      have := answersJsonChars_len (p :: a')
      simp only [List.length_append, List.length_cons] at this ⊢
      omega
    rw [hunf, if_neg hne,
      show answersJsonChars (p :: a') ++ ['\x7d'] =
        answersJsonChars (p :: a') ++ '\x7d' :: [] from rfl,
      parseEntriesAux_round (p :: a') _ [] (by simp) hlen]

/-- Writing a key larger than every present key appends the entry. -/
theorem setAnswer_append (acc : Answers) (k : Nat) (v : String)
    (h : ∀ x ∈ acc.map Prod.fst, x < k) : setAnswer acc k v = acc ++ [(k, v)] := by
  induction acc with
  | nil => rfl
  | cons p rest ih =>
    obtain ⟨k0, v0⟩ := p
    have hk0 : k0 < k := h k0 (by simp)
    simp only [setAnswer, List.cons_append]
    rw [if_neg (by omega), if_neg (by omega), ih (fun x hx => h x (by simp [hx]))]

/-- Object.assign of a sorted record into a sorted prefix of it
concatenates them. -/
theorem objAssign_sorted : ∀ (m acc : Answers),
    ((acc ++ m).map Prod.fst).Pairwise (· < ·) → objAssign acc m = acc ++ m := by
  intro m
  induction m with
  | nil => intro acc _; simp [objAssign]
  | cons p m' ih =>
    intro acc hp
    have hstep : setAnswer acc p.1 p.2 = acc ++ [p] := by
      apply setAnswer_append
      intro x hx
      rw [List.map_append, List.pairwise_append] at hp
      have := hp.2.2 x hx p.1 (by simp)
      exact this
    show objAssign (setAnswer acc p.1 p.2) m' = acc ++ p :: m'
    rw [hstep, ih (acc ++ [p]) (by simpa using hp)]
    simp

/-- The stringified answers value is never the empty string. -/
theorem jsonStringify_ne_empty (a : Answers) : jsonStringifyAnswers a ≠ "" := by
  intro hcon
  have := congrArg String.data hcon
  simp [jsonStringifyAnswers] at this

/-- The index, completed and started fields produced by the per-key tail
of loadSavedState. -/
theorem loadRest_fields (st : Store) (s : QuizState) :
    (loadRest st s).questions = s.questions ∧
    (loadRest st s).answers = s.answers ∧
    (loadRest st s).currentQuestionIndex =
      (match st.indexV with
       | some iv => parseIntJS iv
       | none => s.currentQuestionIndex) ∧
    (loadRest st s).quizCompleted = (s.quizCompleted || (st.completedV == some "true")) ∧
    (loadRest st s).hasStarted = (s.hasStarted || (st.startedV == some "true")) := by
  cases hidx : st.indexV <;>
    by_cases hc : st.completedV == some "true" <;>
    by_cases hs : st.startedV == some "true" <;>
    cases hqc : s.quizCompleted <;> cases hhs : s.hasStarted <;>
    simp [loadRest, hidx, hc, hs, hqc, hhs]

/-- loadSavedState when the stored answers value is present, truthy and
parses: the parsed record is merged and the per-key tail runs. -/
theorem loadSavedState_parsed (st : Store) (d : QuizState) (aStr : String)
    (m : Answers) (ha : st.answersV = some aStr) (hne : aStr ≠ "")
    (hm : jsonParseAnswers aStr = some m) :
    loadSavedState st d = loadRest st { d with answers := objAssign d.answers m } := by
  unfold loadSavedState
  rw [ha]
  simp [hne, hm]

/-- Pointwise equality of states from field equality. -/
theorem QuizState_ext (x y : QuizState) (h1 : x.questions = y.questions)
    (h2 : x.answers = y.answers)
    (h3 : x.currentQuestionIndex = y.currentQuestionIndex)
    (h4 : x.quizCompleted = y.quizCompleted) (h5 : x.hasStarted = y.hasStarted) :
    x = y := by
  cases x
  cases y
  simp_all

/-- Claim C5: restoring from the exact store contents written by the
persistence pass, starting from the default state over the same question
list, reproduces the state: the same answers, index, completed and
started values. The hypothesis states that the answers record is a
well-formed JavaScript object value (keys strictly ascending, as every
reachable record is). -/
theorem c5_round_trip (s : QuizState) (h : WFAnswers s.answers) :
    loadSavedState (saveToLocalStorage s) (initState s.questions) = s := by
  rw [loadSavedState_parsed (saveToLocalStorage s) (initState s.questions)
    (jsonStringifyAnswers s.answers) s.answers rfl
    (jsonStringify_ne_empty s.answers) (jsonParse_stringify s.answers)]
  have hobj : objAssign (initState s.questions).answers s.answers = s.answers := by
    have h2 := objAssign_sorted s.answers [] (by simpa [WFAnswers] using h)
    simpa using h2
  obtain ⟨h1, h2, h3, h4, h5⟩ := loadRest_fields (saveToLocalStorage s)
    { initState s.questions with answers := objAssign (initState s.questions).answers s.answers }
  apply QuizState_ext
  · exact h1.trans rfl
  · exact h2.trans hobj
  · exact h3.trans (parseIntJS_jsNumToString s.currentQuestionIndex)
  · refine h4.trans ?_
    cases hq : s.quizCompleted <;> simp [saveToLocalStorage, hq, boolToString, initState]
  · refine h5.trans ?_
    cases hh : s.hasStarted <;> simp [saveToLocalStorage, hh, boolToString, initState]

/-- Witness for claim C5 at a concrete mid-session state. -/
theorem c5_witness :
    loadSavedState
        (saveToLocalStorage
          { questions := demo3Qs, answers := demoAnswersA,
            currentQuestionIndex := some 2, quizCompleted := true, hasStarted := true })
        (initState demo3Qs) =
      { questions := demo3Qs, answers := demoAnswersA,
        currentQuestionIndex := some 2, quizCompleted := true, hasStarted := true } :=
  c5_round_trip
    { questions := demo3Qs, answers := demoAnswersA,
      currentQuestionIndex := some 2, quizCompleted := true, hasStarted := true }
    (by unfold WFAnswers; decide)

/-! ## Frame lemmas for the index invariant -/

/-- selectAnswer leaves the question list and the index unchanged. -/
theorem selectAnswer_frame (l : String) (s : QuizState) :
    (selectAnswer l s).questions = s.questions ∧
    (selectAnswer l s).currentQuestionIndex = s.currentQuestionIndex := by
  unfold selectAnswer
  split <;> exact ⟨rfl, rfl⟩

/-- goToQuestion leaves the question list unchanged. -/
theorem goToQuestion_questions (i : Int) (s : QuizState) :
    (goToQuestion i s).questions = s.questions := by
  unfold goToQuestion
  split <;> rfl

/-- goNext leaves the question list unchanged. -/
theorem goNext_questions (s : QuizState) :
    (goNext s).questions = s.questions := by
  unfold goNext
  split <;> rfl

/-- goPrevious leaves the question list unchanged. -/
theorem goPrevious_questions (s : QuizState) :
    (goPrevious s).questions = s.questions := by
  unfold goPrevious
  split <;> rfl

/-- startQuiz leaves the question list unchanged. -/
theorem startQuiz_questions (s : QuizState) :
    (startQuiz s).questions = s.questions := by
  unfold startQuiz
  split
  · split <;> rfl
  · rfl

/-- loadSavedState never touches the question list. -/
theorem loadSavedState_questions (st : Store) (d : QuizState) :
    (loadSavedState st d).questions = d.questions := by
  unfold loadSavedState
  cases ha : st.answersV with
  | none => exact (loadRest_fields st d).1
  | some a =>
    by_cases he : a = ""
    · simp only [he, if_pos rfl]
      exact (loadRest_fields st d).1
    · simp only [if_neg he]
      cases hp : jsonParseAnswers a with
      | none => rfl
      | some m => exact ((loadRest_fields st _).1).trans rfl

/-- A reload (save followed by restore into a fresh default state over the
same questions) reproduces the index. -/
theorem load_save_index (s : QuizState) :
    (loadSavedState (saveToLocalStorage s) (initState s.questions)).currentQuestionIndex =
      s.currentQuestionIndex := by
  rw [loadSavedState_parsed (saveToLocalStorage s) (initState s.questions)
    (jsonStringifyAnswers s.answers) s.answers rfl
    (jsonStringify_ne_empty s.answers) (jsonParse_stringify s.answers)]
  exact ((loadRest_fields _ _).2.2.1).trans
    (parseIntJS_jsNumToString s.currentQuestionIndex)

/-- Claim C3: in every reachable session state with a non-empty question
list the current index is an integer in the range from 0 to the number of
questions minus one; both the session operations and a persistence
round-trip through the store preserve this. -/
theorem c3_index_in_range (s : QuizState) (hr : Reachable s)
    (hne : s.questions ≠ []) :
    ∃ i : Int, s.currentQuestionIndex = some i ∧ 0 ≤ i ∧
      i < (s.questions.length : Int) := by
  revert hne
  induction hr with
  | init qs =>
    intro hne
    refine ⟨0, rfl, le_refl 0, ?_⟩
    have : 0 < qs.length := List.length_pos.mpr hne
    exact_mod_cast this
  | select l hr ih =>
    rename_i s0
    intro hne
    obtain ⟨hq, hi⟩ := selectAnswer_frame l s0
    rw [hq] at hne ⊢
    rw [hi]
    exact ih hne
  | goTo i hr ih =>
    rename_i s0
    intro hne
    rw [goToQuestion_questions] at hne
    by_cases hb : 0 ≤ i ∧ i < (s0.questions.length : Int)
    · simp only [goToQuestion, if_pos hb]
      exact ⟨i, rfl, hb.1, hb.2⟩
    · simp only [goToQuestion, if_neg hb]
      exact ih hne
  | next hr ih =>
    rename_i s0
    intro hne
    rw [goNext_questions] at hne
    obtain ⟨i, hi, h0, hl⟩ := ih hne
    by_cases hlast : isLastQuestion s0 = true
    · have hstep : goNext s0 = s0 := by
        unfold goNext
        rw [hlast]
        simp
      rw [hstep]
      exact ⟨i, hi, h0, hl⟩
    · have hl2 : isLastQuestion s0 = false := by
        revert hlast
        cases isLastQuestion s0 <;> simp
      have hne2 : i ≠ (s0.questions.length : Int) - 1 := by
        intro hcon
        rw [isLastQuestion, hi, hcon] at hl2
        simp at hl2
      have hstep : goNext s0 =
          { s0 with currentQuestionIndex := jsAdd s0.currentQuestionIndex 1 } := by
        unfold goNext
        rw [hl2]
        simp
      rw [hstep]
      refine ⟨i + 1, ?_, by omega, ?_⟩
      · show jsAdd s0.currentQuestionIndex 1 = some (i + 1)
        rw [hi]
        rfl
      · show (i + 1 : Int) < (s0.questions.length : Int)
        omega
  | prev hr ih =>
    rename_i s0
    intro hne
    rw [goPrevious_questions] at hne
    obtain ⟨i, hi, h0, hl⟩ := ih hne
    by_cases hfirst : isFirstQuestion s0 = true
    · have hstep : goPrevious s0 = s0 := by
        unfold goPrevious
        rw [hfirst]
        simp
      rw [hstep]
      exact ⟨i, hi, h0, hl⟩
    · have hf2 : isFirstQuestion s0 = false := by
        revert hfirst
        cases isFirstQuestion s0 <;> simp
      have hne2 : i ≠ 0 := by
        intro hcon
        rw [isFirstQuestion, hi, hcon] at hf2
        simp at hf2
      have hstep : goPrevious s0 =
          { s0 with currentQuestionIndex := jsAdd s0.currentQuestionIndex (-1) } := by
        unfold goPrevious
        rw [hf2]
        simp
      rw [hstep]
      refine ⟨i + (-1), ?_, by omega, ?_⟩
      · show jsAdd s0.currentQuestionIndex (-1) = some (i + (-1))
        rw [hi]
        rfl
      · show (i + (-1) : Int) < (s0.questions.length : Int)
        omega
  | submit hr ih =>
    rename_i s0
    intro hne
    exact ih hne
  | start hr ih =>
    rename_i s0
    intro hne
    rw [startQuiz_questions] at hne
    have hpos : s0.questions.length > 0 := List.length_pos.mpr hne
    obtain ⟨i, hi, h0, hl⟩ := ih hne
    unfold startQuiz
    rw [if_pos hpos]
    by_cases hg : (jsLtInt s0.currentQuestionIndex 0
        || jsGeInt s0.currentQuestionIndex (s0.questions.length : Int)) = true
    · rw [if_pos hg]
      exact ⟨0, rfl, le_refl 0, by exact_mod_cast hpos⟩
    · rw [if_neg hg]
      exact ⟨i, hi, h0, hl⟩
  | restart hr ih =>
    rename_i s0
    intro hne
    have hpos : 0 < s0.questions.length := List.length_pos.mpr hne
    exact ⟨0, rfl, le_refl 0, by exact_mod_cast hpos⟩
  | reload hr ih =>
    rename_i s0
    intro hne
    have hq := loadSavedState_questions (saveToLocalStorage s0) (initState s0.questions)
    rw [hq] at hne ⊢
    obtain ⟨i, hi, h0, hl⟩ := ih hne
    rw [load_save_index s0, hi]
    exact ⟨i, rfl, h0, hl⟩

/-- Witness for claim C3 at the freshly loaded one-question state. -/
theorem c3_witness :
    (initState [demoQ1]).questions ≠ [] ∧
    ∃ i : Int, (initState [demoQ1]).currentQuestionIndex = some i ∧ 0 ≤ i ∧
      i < ((initState [demoQ1]).questions.length : Int) :=
  ⟨by decide, c3_index_in_range (initState [demoQ1]) (Reachable.init [demoQ1]) (by decide)⟩

/-- Counterexample for claim C1 as stated: in this store only the answers
value is corrupt (malformed JSON) while the index, completed and started
values are all valid, yet restoring leaves the state at its defaults:
none of the other three keys is restored, because the single try/catch
around the whole of loadSavedState abandons them when JSON.parse
throws. -/
theorem c1_counterexample :
    badAnswersStore.indexV = some "2" ∧
    badAnswersStore.completedV = some "true" ∧
    badAnswersStore.startedV = some "true" ∧
    jsonParseAnswers "\x7b" = none ∧
    loadSavedState badAnswersStore (initState demo3Qs) = initState demo3Qs ∧
    (loadSavedState badAnswersStore (initState demo3Qs)).currentQuestionIndex = some 0 ∧
    (loadSavedState badAnswersStore (initState demo3Qs)).quizCompleted = false ∧
    (loadSavedState badAnswersStore (initState demo3Qs)).hasStarted = false := by
  decide

/-- Claim C1 amended: a corrupt index, completed or started value never
blocks the other keys (the index becomes NaN, a boolean not equal to the
string true is ignored), but a malformed JSON answers value aborts the
whole restoration and none of the remaining keys is restored. -/
theorem c1_per_key_restore (st : Store) (d : QuizState) :
    (∀ aStr, st.answersV = some aStr → aStr ≠ "" → jsonParseAnswers aStr = none →
      loadSavedState st d = d) ∧
    ((st.answersV = none ∨ ∃ aStr, st.answersV = some aStr ∧
        (aStr = "" ∨ (jsonParseAnswers aStr).isSome = true)) →
      ((loadSavedState st d).currentQuestionIndex =
        (match st.indexV with
         | some iv => parseIntJS iv
         | none => d.currentQuestionIndex)) ∧
      ((loadSavedState st d).quizCompleted =
        (d.quizCompleted || (st.completedV == some "true"))) ∧
      ((loadSavedState st d).hasStarted =
        (d.hasStarted || (st.startedV == some "true")))) := by
  constructor
  · intro aStr ha hne hp
    unfold loadSavedState
    rw [ha]
    simp [hne, hp]
  · intro hok
    rcases hok with hnone | ⟨aStr, ha, hcase⟩
    · unfold loadSavedState
      rw [hnone]
      exact ⟨(loadRest_fields st d).2.2.1, (loadRest_fields st d).2.2.2.1,
        (loadRest_fields st d).2.2.2.2⟩
    · by_cases he : aStr = ""
      · unfold loadSavedState
        rw [ha]
        simp only [he, if_pos rfl]
        exact ⟨(loadRest_fields st d).2.2.1, (loadRest_fields st d).2.2.2.1,
          (loadRest_fields st d).2.2.2.2⟩
      · have hsome : (jsonParseAnswers aStr).isSome = true := by
          rcases hcase with hc | hc
          · exact absurd hc he
          · exact hc
        obtain ⟨m, hm⟩ := Option.isSome_iff_exists.mp hsome
        rw [loadSavedState_parsed st d aStr m ha he hm]
        refine ⟨((loadRest_fields st _).2.2.1).trans ?_,
          ((loadRest_fields st _).2.2.2.1).trans ?_,
          ((loadRest_fields st _).2.2.2.2).trans ?_⟩ <;> rfl

/-- Witness for the amended claim C1 at the two concrete stores. -/
theorem c1_witness :
    loadSavedState badAnswersStore (initState []) = initState [] ∧
    ((loadSavedState corruptIndexStore (initState [])).currentQuestionIndex =
      (match corruptIndexStore.indexV with
       | some iv => parseIntJS iv
       | none => (initState []).currentQuestionIndex) ∧
    (loadSavedState corruptIndexStore (initState [])).quizCompleted =
      ((initState []).quizCompleted || (corruptIndexStore.completedV == some "true")) ∧
    (loadSavedState corruptIndexStore (initState [])).hasStarted =
      ((initState []).hasStarted || (corruptIndexStore.startedV == some "true"))) :=
  ⟨(c1_per_key_restore badAnswersStore (initState [])).1 "\x7b" rfl (by decide) (by decide),
    (c1_per_key_restore corruptIndexStore (initState [])).2
      (Or.inr ⟨"\x7b\x7d", rfl, Or.inr (by decide)⟩)⟩

end QuizApp
